import Mathlib

/-!
Verification development for the hackview session-log watcher
(`src/watcher.js`) and its record parser / event extractor
(`parseRecord`, `extractEvent` and helpers in the parser module).

The JavaScript code is shallowly embedded: JS values flowing through the
parser and extractor are modelled by the inductive `Js`; functions are
translated one-to-one into total Lean functions.  JS runtime exceptions
that the source catches (e.g. calling `.slice` on a non-string, or
iterating a non-iterable) are modelled by `Option`-valued helpers whose
`none` result propagates to the enclosing `try`/`catch`.

Modelling conventions, stated once:
* JSON numbers are modelled as integers (`Js.num : Int`); the session-log
  format only carries integer counters.  String indices and lengths count
  characters (the source counts UTF-16 code units; these agree on the
  ASCII payloads all properties below exercise).
* File bytes are modelled as characters, so byte offsets are character
  offsets (the logs are UTF-8; offsets agree on ASCII).
* A JS value that is `undefined` is `Js.undefined`, distinct from `Js.null`.
-/

/-- Model of a JavaScript value as produced by `JSON.parse` and passed
around the extractor: `undefined`, `null`, booleans, (integer) numbers,
strings, arrays and plain objects with insertion-ordered fields. -/
inductive Js where
  | undefined
  | null
  | bool (b : Bool)
  | num (n : Int)
  | str (s : String)
  | arr (elems : List Js)
  | obj (fields : List (String × Js))

namespace Hackview

/-- JavaScript truthiness: `undefined`, `null`, `false`, `0` and `""` are
falsy; every array and object is truthy. -/
def truthy : Js → Bool
  | .undefined => false
  | .null => false
  | .bool b => b
  | .num n => n != 0
  | .str s => s != ""
  | .arr _ => true
  | .obj _ => true

/-- Property access `v.k`: a field lookup on an object (first matching
field), `undefined` on everything else (primitive wrapper properties such
as `"s".length` are not used by the embedded code). -/
def jsGet (v : Js) (k : String) : Js :=
  match v with
  | .obj fields =>
    match fields.find? (fun p => p.1 == k) with
    | some p => p.2
    | none => .undefined
  | _ => .undefined

/-- Test for the JS value `null` (strict equality `=== null`). -/
def jsIsNull : Js → Bool
  | .null => true
  | _ => false

/-- Test for the JS value `undefined` (strict equality `=== undefined`). -/
def jsIsUndef : Js → Bool
  | .undefined => true
  | _ => false

/-- Strict equality `v === s` against a string literal. -/
def jsStrictEqStr (v : Js) (s : String) : Bool :=
  match v with
  | .str t => t == s
  | _ => false

/-- Join a list of strings with commas (`Array.prototype.join(',')`). -/
def joinComma : List String → String
  | [] => ""
  | [s] => s
  | s :: rest => s ++ "," ++ joinComma rest

mutual
/-- JavaScript string conversion `String(v)` as used by template
literals: `undefined`/`null` spell out, arrays join their element
strings with commas (with `null`/`undefined` elements rendered empty),
objects render as `[object Object]`. -/
def jsToString : Js → String
  | .undefined => "undefined"
  | .null => "null"
  | .bool true => "true"
  | .bool false => "false"
  | .num n => toString n
  | .str s => s
  | .arr xs => joinComma (elemStrings xs)
  | .obj _ => "[object Object]"

/-- Element rendering for `Array.prototype.join`: `null` and `undefined`
elements become the empty string. -/
def elemStrings : List Js → List String
  | [] => []
  | x :: xs =>
    (match x with
     | .undefined => ""
     | .null => ""
     | v => jsToString v) :: elemStrings xs
end

/-- JS `s.slice(0, n)` on a string: the first `n` characters. -/
def sliceStr (s : String) (n : Nat) : String := String.mk (s.toList.take n)

/-- Whitespace characters removed by `String.prototype.trim` (the subset
that can occur in the log lines). -/
def isWs (c : Char) : Bool :=
  c == ' ' || c == '\t' || c == '\n' || c == '\r' || c == '\x0b' || c == '\x0c'

/-- JS `s.trim()`: strip leading and trailing whitespace. -/
def jsTrim (s : String) : String :=
  String.mk (((s.toList.dropWhile isWs).reverse.dropWhile isWs).reverse)

/-- Split a character list at newline characters (`s.split('\n')`). -/
def splitNl : List Char → List String
  | [] => [""]
  | c :: rest =>
    if c == '\n' then "" :: splitNl rest
    else
      match splitNl rest with
      | [] => [String.mk [c]]
      | s :: ss => (String.mk (c :: s.toList)) :: ss

/-- JS `content.split('\n').filter(l => l.trim())`: the non-blank lines
of a chunk of text, in order. -/
def nonBlankLines (content : String) : List String :=
  (splitNl content.toList).filter (fun l => jsTrim l != "")

/-! ### JSON parsing (`JSON.parse`)

A recursive-descent parser over the character list, with a fuel
parameter bounding recursion depth.  The grammar is JSON restricted to
integer numeric literals (see the module conventions above); the whole
input must be consumed up to trailing whitespace, as `JSON.parse`
requires. -/

/-- Skip JSON insignificant whitespace. -/
def skipWs : List Char → List Char
  | c :: rest =>
    if c == ' ' || c == '\t' || c == '\n' || c == '\r' then skipWs rest
    else c :: rest
  | [] => []

/-- Decode a single-character JSON escape sequence (`\uXXXX` is handled
separately). -/
def escChar (e : Char) : Option Char :=
  if e == '"' then some '"'
  else if e == '\\' then some '\\'
  else if e == '/' then some '/'
  else if e == 'b' then some '\x08'
  else if e == 'f' then some '\x0c'
  else if e == 'n' then some '\n'
  else if e == 'r' then some '\r'
  else if e == 't' then some '\t'
  else none

/-- Decode one hexadecimal digit. -/
def hexDigit (h : Char) : Option Nat :=
  if '0' ≤ h && h ≤ '9' then some (h.toNat - '0'.toNat)
  else if 'a' ≤ h && h ≤ 'f' then some (h.toNat - 'a'.toNat + 10)
  else if 'A' ≤ h && h ≤ 'F' then some (h.toNat - 'A'.toNat + 10)
  else none

/-- Parse the body of a JSON string literal after the opening quote,
returning the string and the remaining input.  Handles the JSON escape
sequences; raw control characters are rejected. -/
def parseStringBody : List Char → Option (String × List Char)
  | [] => none
  | c :: rest =>
    if c == '"' then some ("", rest)
    else if c == '\\' then
      match rest with
      | [] => none
      | 'u' :: h1 :: h2 :: h3 :: h4 :: rest' =>
        (match hexDigit h1, hexDigit h2, hexDigit h3, hexDigit h4 with
         | some a, some b, some c', some d =>
           (match parseStringBody rest' with
            | some (s, r) =>
              some (String.mk (Char.ofNat (((a * 16 + b) * 16 + c') * 16 + d) :: s.toList), r)
            | none => none)
         | _, _, _, _ => none)
      | e :: rest' =>
        (match escChar e with
         | some ch =>
           (match parseStringBody rest' with
            | some (s, r) => some (String.mk (ch :: s.toList), r)
            | none => none)
         | none => none)
    else if c.toNat < 32 then none
    else
      match parseStringBody rest with
      | some (s, r) => some (String.mk (c :: s.toList), r)
      | none => none

/-- Parse a run of decimal digits, returning their value, the count of
digits consumed and the rest of the input. -/
def parseDigits : List Char → Nat → Nat → Nat × Nat × List Char
  | c :: rest, acc, cnt =>
    if '0' ≤ c && c ≤ '9' then
      parseDigits rest (acc * 10 + (c.toNat - '0'.toNat)) (cnt + 1)
    else (acc, cnt, c :: rest)
  | [], acc, cnt => (acc, cnt, [])

/-- Parse a JSON integer literal (optional minus sign, no leading
zeros). -/
def parseIntLit (cs : List Char) : Option (Int × List Char) :=
  let core (cs : List Char) : Option (Nat × List Char) :=
    match cs with
    | '0' :: rest =>
      match rest with
      | c :: _ => if '0' ≤ c && c ≤ '9' then none else some (0, rest)
      | [] => some (0, [])
    | c :: _ =>
      if '1' ≤ c && c ≤ '9' then
        let (v, _, rest) := parseDigits cs 0 0
        some (v, rest)
      else none
    | [] => none
  match cs with
  | '-' :: rest =>
    match core rest with
    | some (v, r) => some (-(v : Int), r)
    | none => none
  | _ =>
    match core cs with
    | some (v, r) => some ((v : Int), r)
    | none => none

mutual
/-- Parse one JSON value (leading whitespace allowed). -/
def parseVal : Nat → List Char → Option (Js × List Char)
  | 0, _ => none
  | fuel + 1, cs =>
    match skipWs cs with
    | 'n' :: 'u' :: 'l' :: 'l' :: rest => some (.null, rest)
    | 't' :: 'r' :: 'u' :: 'e' :: rest => some (.bool true, rest)
    | 'f' :: 'a' :: 'l' :: 's' :: 'e' :: rest => some (.bool false, rest)
    | '"' :: rest =>
      match parseStringBody rest with
      | some (s, r) => some (.str s, r)
      | none => none
    | '[' :: rest =>
      (match skipWs rest with
       | ']' :: r => some (.arr [], r)
       | other =>
         match parseElems fuel other with
         | some (xs, r) => some (.arr xs, r)
         | none => none)
    | '{' :: rest =>
      (match skipWs rest with
       | '}' :: r => some (.obj [], r)
       | other =>
         match parseFields fuel other with
         | some (fs, r) => some (.obj fs, r)
         | none => none)
    | other =>
      match parseIntLit other with
      | some (n, r) => some (.num n, r)
      | none => none

/-- Parse the elements of a non-empty JSON array, up to and including the
closing bracket. -/
def parseElems : Nat → List Char → Option (List Js × List Char)
  | 0, _ => none
  | fuel + 1, cs =>
    match parseVal fuel cs with
    | some (v, r) =>
      (match skipWs r with
       | ',' :: r' =>
         (match parseElems fuel r' with
          | some (xs, r'') => some (v :: xs, r'')
          | none => none)
       | ']' :: r' => some ([v], r')
       | _ => none)
    | none => none

/-- Parse the members of a non-empty JSON object, up to and including the
closing brace. -/
def parseFields : Nat → List Char → Option (List (String × Js) × List Char)
  | 0, _ => none
  | fuel + 1, cs =>
    match skipWs cs with
    | '"' :: rest =>
      (match parseStringBody rest with
       | some (k, r) =>
         (match skipWs r with
          | ':' :: r' =>
            (match parseVal fuel r' with
             | some (v, r'') =>
               (match skipWs r'' with
                | ',' :: r3 =>
                  (match parseFields fuel r3 with
                   | some (fs, r4) => some ((k, v) :: fs, r4)
                   | none => none)
                | '}' :: r3 => some ([(k, v)], r3)
                | _ => none)
             | none => none)
          | _ => none)
       | none => none)
    | _ => none
end

/-- Model of `JSON.parse(s)`: parse one JSON value with trailing
whitespace allowed; `none` models the thrown `SyntaxError`. -/
def jsonParse (s : String) : Option Js :=
  let cs := s.toList
  match parseVal (cs.length + 1) cs with
  | some (v, rest) =>
    match skipWs rest with
    | [] => some v
    | _ => none
  | none => none

/-- Embeds `parseRecord(line)`: `JSON.parse(line.trim())`, returning the
parsed value, with the catch-all returning `null` on a parse error.  The
JS value `null` is also this function's "no record" sentinel, since the
caller guards with `if (!record)`. -/
def parseRecord (line : String) : Js :=
  match jsonParse (jsTrim line) with
  | some v => v
  | none => Js.null

/-! ### Event extraction (`extractEvent` and helpers) -/

/-- Display event as constructed by `extractEvent`.  Fields a given
construction site leaves absent (`usage` on session-start events,
`toolName` on everything but tool use) hold `Js.undefined`. -/
structure Event where
  type : String
  content : String
  messageId : Js
  isComplete : Bool
  usage : Js
  toolName : Js

/-- Join a list of strings with single spaces (`parts.join(' ')`). -/
def joinSpace : List String → String
  | [] => ""
  | [s] => s
  | s :: rest => s ++ " " ++ joinSpace rest

/-- Embeds the `tool_result` branch of `extractUserContent`: summarize a
tool result's content, preferring a textual sub-block when the result is
an array.  `none` models the `TypeError` thrown by `.slice` when the
found text block's `text` payload is not a string. -/
def toolResultSummary (rc : Js) : Option String :=
  match rc with
  | .str s => some ("[result: " ++ sliceStr s 60 ++ "]")
  | .arr xs =>
    (match xs.find? (fun b => jsStrictEqStr (jsGet b "type") "text") with
     | some t =>
       (match jsGet t "text" with
        | .str s => some ("[result: " ++ sliceStr s 60 ++ "]")
        | _ => none)
     | none => some "[tool result]")
  | _ => some "[tool result]"

/-- Embeds the block loop of `extractUserContent`: one summary string
per recognized block (`text`, `tool_result`, `image`), in block order.
`none` models a thrown `TypeError` (non-string `text` payload). -/
def userPartStrings : List Js → Option (List String)
  | [] => some []
  | b :: rest =>
    if jsStrictEqStr (jsGet b "type") "text" then
      (match (if truthy (jsGet b "text") then
                (match jsGet b "text" with
                 | .str s => some (sliceStr s 200)
                 | _ => none)
              else some "") with
       | none => none
       | some p => (userPartStrings rest).map (p :: ·))
    else if jsStrictEqStr (jsGet b "type") "tool_result" then
      (match toolResultSummary (jsGet b "content") with
       | none => none
       | some p => (userPartStrings rest).map (p :: ·))
    else if jsStrictEqStr (jsGet b "type") "image" then
      (userPartStrings rest).map (fun ps => "[image]" :: ps)
    else userPartStrings rest

/-- Embeds `extractUserContent(content)`: a plain string is truncated to
200 characters; an array is walked block-by-block and the joined result
truncated to 300 characters, with an empty result mapped to `null`; any
other shape yields `null`.  The outer `none` covers both the `null`
returns and a propagated exception, which the caller treats alike. -/
def extractUserContent (content : Js) : Option String :=
  if !(truthy content) then none
  else
    match content with
    | .str s => some (sliceStr s 200)
    | .arr blocks =>
      (match userPartStrings blocks with
       | none => none
       | some parts =>
         let joined := sliceStr (joinSpace parts) 300
         if joined == "" then none else some joined)
    | _ => none

/-- Object key/value view used by `summarizeInput` (`Object.keys` plus
indexing): an object's own fields in order; an array's or string's
indexed elements; empty for other primitives. -/
def jsKeys : Js → List (String × Js)
  | .obj fields => fields
  | .arr xs => xs.enum.map (fun p => (toString p.1, p.2))
  | .str s => s.toList.enum.map (fun p => (toString p.1, Js.str (String.mk [p.2])))
  | _ => []

/-- Lookup in a key/value list, `undefined` when the key is absent
(models `input[key]`). -/
def jsLookup (keys : List (String × Js)) (k : String) : Js :=
  match keys.find? (fun p => p.1 == k) with
  | some p => p.2
  | none => .undefined

/-- Priority order of meaningful tool-input keys in `summarizeInput`. -/
def priorityKeys : List String :=
  ["command", "path", "file_path", "url", "query", "pattern", "description"]

/-- Embeds `summarizeInput(input)`: empty for falsy or key-less input;
otherwise the first priority key's value stringified and truncated to 50
characters, falling back to `firstKey=value` with the value truncated to
40 characters. -/
def summarizeInput (input : Js) : String :=
  if !(truthy input) then ""
  else
    match jsKeys input with
    | [] => ""
    | (firstKey, firstVal) :: restKeys =>
      match priorityKeys.findSome? (fun pk =>
          let v := jsLookup ((firstKey, firstVal) :: restKeys) pk
          if jsIsUndef v then none else some v) with
      | some v => sliceStr (jsToString v) 50
      | none => firstKey ++ "=" ++ sliceStr (jsToString firstVal) 40

/-- Content of a thinking event:
`block.thinking ? block.thinking.slice(0, 80) + '...' : 'thinking...'`.
`none` models the `TypeError` thrown by `.slice` on a truthy non-string
payload. -/
def thinkingContent (v : Js) : Option String :=
  if truthy v then
    match v with
    | .str s => some (sliceStr s 80 ++ "...")
    | _ => none
  else some "thinking..."

/-- Content of a text event: `block.text || ''`.  A truthy non-string
payload is modelled as extraction failure (the log format carries
strings there). -/
def textContent (v : Js) : Option String :=
  if truthy v then
    match v with
    | .str s => some s
    | _ => none
  else some ""

/-- Iteration `for (const block of blocks)`: arrays yield their
elements, strings their characters; `none` models the `TypeError`
thrown on other (truthy, non-iterable) values. -/
def jsIterList : Js → Option (List Js)
  | .arr xs => some xs
  | .str s => some (s.toList.map (fun ch => Js.str (String.mk [ch])))
  | _ => none

/-- Embeds the content-block loop of the `assistant` branch of
`extractEvent`: one Event per recognized block (`thinking`, `text`,
`tool_use`), in block order, each carrying the message id `mid`, the
completion flag `comp` and the `usage` value.  `none` models a thrown
exception. -/
def blockEvents (mid : Js) (comp : Bool) (usage : Js) : List Js → Option (List Event)
  | [] => some []
  | b :: rest =>
    if jsStrictEqStr (jsGet b "type") "thinking" then
      (match thinkingContent (jsGet b "thinking") with
       | none => none
       | some c =>
         (blockEvents mid comp usage rest).map
           (fun es => ⟨"thinking", c, mid, comp, usage, Js.undefined⟩ :: es))
    else if jsStrictEqStr (jsGet b "type") "text" then
      (match textContent (jsGet b "text") with
       | none => none
       | some c =>
         (blockEvents mid comp usage rest).map
           (fun es => ⟨"text", c, mid, comp, usage, Js.undefined⟩ :: es))
    else if jsStrictEqStr (jsGet b "type") "tool_use" then
      let nm := jsGet b "name"
      let c := jsToString nm ++ "(" ++ summarizeInput (jsGet b "input") ++ ")"
      (blockEvents mid comp usage rest).map
        (fun es => ⟨"tool_use", c, mid, comp, usage, nm⟩ :: es)
    else blockEvents mid comp usage rest

/-- Embeds `extractEvent(record)`.  The result is `none` for the JS
`null` return; a single returned event object is modelled as a
one-element list (the caller normalizes with `Array.isArray`).  The
`try`/`catch` that converts any extraction-time exception into `null`
is modelled by the `none` propagation of the helpers. -/
def extractEvent (record : Js) : Option (List Event) :=
  if !(truthy record && truthy (jsGet record "type")) then none
  else
    match jsGet record "type" with
    | .str "queue-operation" =>
      if jsStrictEqStr (jsGet record "operation") "dequeue" then
        some [⟨"session-start", "Session started", Js.null, false, Js.undefined, Js.undefined⟩]
      else none
    | .str "file-history-snapshot" => none
    | .str "user" =>
      let msg := jsGet record "message"
      if !(truthy msg) then none
      else
        (match extractUserContent (jsGet msg "content") with
         | none => none
         | some c =>
           if c == "" then none
           else
             some [⟨"user", c,
                    (if truthy (jsGet msg "id") then jsGet msg "id" else Js.null),
                    true, Js.null, Js.undefined⟩])
    | .str "assistant" =>
      let msg := jsGet record "message"
      if !(truthy msg) then none
      else
        let mid := jsGet msg "id"
        let comp := !(jsIsNull (jsGet msg "stop_reason"))
        let usage := if truthy (jsGet msg "usage") then jsGet msg "usage" else Js.null
        let rawContent := jsGet msg "content"
        (match jsIterList (if truthy rawContent then rawContent else Js.arr []) with
         | none => none
         | some blocks =>
           (match blockEvents mid comp usage blocks with
            | none => none
            | some evs =>
              if evs.isEmpty then
                (if !(jsIsNull (jsGet msg "stop_reason")) then
                   some [⟨"complete", "[" ++ jsToString (jsGet msg "stop_reason") ++ "]",
                          mid, true, usage, Js.undefined⟩]
                 else none)
              else some evs))
    | _ => none

/-! ### Merge engine and session watcher (`watcher.js`) -/

/-- Event object as emitted by `SessionWatcher` (`this.emit('event', …)`):
the event (or merged state) fields spread out, plus the slot index, the
historical flag and the update flag.  The update emissions at lines
225/231 of the source spread `{ ...existing, sessionIndex, isUpdate }`
without an `isHistory` property, hence `isHistory : Option Bool` with
`none` for the absent field. -/
structure Emitted where
  type : String
  content : String
  messageId : Js
  isComplete : Bool
  usage : Js
  toolName : Js
  sessionIndex : Nat
  isHistory : Option Bool
  isUpdate : Bool

/-- The `messageStates` map of a `SessionWatcher`: merge key to
accumulated event state, in insertion order (a JS `Map`). -/
abbrev MergeMap := List (String × Event)

/-- JS `Map.prototype.get` composed with `has`: the state stored under a
key, if any. -/
def mmFind : MergeMap → String → Option Event
  | [], _ => none
  | (k', v') :: rest, k => if k' == k then some v' else mmFind rest k

/-- JS `Map.prototype.set`: update an existing key in place, append a
new key at the end. -/
def mmSet : MergeMap → String → Event → MergeMap
  | [], k, v => [(k, v)]
  | (k', v') :: rest, k, v =>
    if k' == k then (k, v) :: rest else (k', v') :: mmSet rest k v

/-- Guard of the merge branch in `_processLine`:
`event.messageId && (event.type === 'text' || event.type === 'thinking'
|| event.type === 'tool_use')`. -/
def mergeEligible (e : Event) : Bool :=
  truthy e.messageId &&
    (e.type == "text" || e.type == "thinking" || e.type == "tool_use")

/-- Merge key: `` `${event.messageId}:${event.type}:${event.toolName || ''}` ``. -/
def mergeKey (e : Event) : String :=
  jsToString e.messageId ++ ":" ++ e.type ++ ":" ++
    (if truthy e.toolName then jsToString e.toolName else "")

/-- Emission `{ ...event, sessionIndex, isHistory, isUpdate: false }`
(line 240 of `watcher.js`). -/
def emitPlain (e : Event) (i : Nat) (isHistory : Bool) : Emitted :=
  ⟨e.type, e.content, e.messageId, e.isComplete, e.usage, e.toolName,
   i, some isHistory, false⟩

/-- Emission `{ ...existing, sessionIndex, isUpdate: true }` (lines
225/231 of `watcher.js`); note the absent `isHistory` property. -/
def emitUpdate (e : Event) (i : Nat) : Emitted :=
  ⟨e.type, e.content, e.messageId, e.isComplete, e.usage, e.toolName,
   i, none, true⟩

/-- Embeds the event loop of `_processLine(line, isHistory)` over the
extracted event list, threading the `messageStates` map and collecting
emissions in order.  Mirrors the source's control flow exactly: when a
merge-eligible event finds an existing state, the text-growth branch or
the completion branch may update the state and (only live) emit an
update, and then the `return` statement ends the whole function — the
remaining events of the list are dropped.  The source's
`if (!event) continue` guard is vacuous for `extractEvent` outputs
(every array element it builds is an object) and has no counterpart
here. -/
def processEvents (i : Nat) (isHistory : Bool) :
    MergeMap → List Event → MergeMap × List Emitted
  | m, [] => (m, [])
  | m, e :: rest =>
    if mergeEligible e then
      let key := mergeKey e
      match mmFind m key with
      | some existing =>
        if e.type == "text" && e.content.length > existing.content.length then
          let upd : Event :=
            { existing with
              content := e.content
              isComplete := e.isComplete
              usage := if truthy e.usage then e.usage else existing.usage }
          (mmSet m key upd, if isHistory then [] else [emitUpdate upd i])
        else if e.isComplete && !existing.isComplete then
          let upd : Event :=
            { existing with
              isComplete := true
              usage := if truthy e.usage then e.usage else existing.usage }
          (mmSet m key upd, if isHistory then [] else [emitUpdate upd i])
        else
          (m, [])
      | none =>
        let m1 := mmSet m key e
        let r := processEvents i isHistory m1 rest
        (r.1, emitPlain e i isHistory :: r.2)
    else
      let r := processEvents i isHistory m rest
      (r.1, emitPlain e i isHistory :: r.2)

/-- Embeds `_processLine(line, isHistory)`: parse the line, extract
events, and run the merge loop.  Falsy records and `null` extraction
results produce nothing; a single extracted event object is normalized
to a one-element list (`Array.isArray`). -/
def processLine (m : MergeMap) (i : Nat) (line : String) (isHistory : Bool) :
    MergeMap × List Emitted :=
  if !(truthy (parseRecord line)) then (m, [])
  else
    match extractEvent (parseRecord line) with
    | none => (m, [])
    | some evs => processEvents i isHistory m evs

/-- Sequential `_processLine` calls over a list of lines, in file
order. -/
def processLines (m : MergeMap) (i : Nat) (lines : List String) (isHistory : Bool) :
    MergeMap × List Emitted :=
  match lines with
  | [] => (m, [])
  | l :: rest =>
    let r1 := processLine m i l isHistory
    let r2 := processLines r1.1 i rest isHistory
    (r2.1, r1.2 ++ r2.2)

/-- Embeds the replay portion of `_loadFile(filePath)` (lines 145‑158 of
`watcher.js`): split the file's current contents into non-blank lines
(`readAllLines`) and feed the last 50 of them (`lines.slice(-50)`)
through `_processLine` with the historical flag set.  The chokidar
watcher installation that follows is I/O and outside the model; `m` is
the slot's `messageStates` map at entry (cleared by the caller
`_checkForNewFile`). -/
def loadFileReplay (m : MergeMap) (i : Nat) (content : String) :
    MergeMap × List Emitted :=
  let ls := nonBlankLines content
  processLines m i (ls.drop (ls.length - 50)) true

/-- Tailing state of a session slot: the byte cursor `this.fileSize` and
the merge state table `this.messageStates`. -/
structure TailState where
  fileSize : Nat
  messageStates : MergeMap

/-- Embeds `_readNewContent(filePath)` with the file's current contents
passed in: when the stat'ed size is not larger than the cursor, do
nothing; otherwise read exactly the byte range `[cursor, size)`, advance
the cursor, and feed the new non-blank lines through `_processLine` as
live input. -/
def readNewContent (st : TailState) (i : Nat) (content : String) :
    TailState × List Emitted :=
  let size := content.length
  if size ≤ st.fileSize then (st, [])
  else
    let newContent := String.mk (content.toList.drop st.fileSize)
    let r := processLines st.messageStates i (nonBlankLines newContent) false
    (⟨size, r.1⟩, r.2)

/-! ### File selection (`_getBestFile`) -/

/-- A candidate file as collected by `_getBestFile`: full path and
modification time in milliseconds. -/
structure FileEntry where
  file : String
  mtime : Int

/-- One watched directory as seen by one scan: its path and either its
listing (file name paired with the `statSync` result, `none` when the
stat throws) or `none` when `readdirSync` itself throws. -/
structure DirListing where
  path : String
  entries : Option (List (String × Option Int))

/-- JS `s.endsWith(suf)`. -/
def strEndsWith (s suf : String) : Bool := List.isSuffixOf suf.toList s.toList

/-- Candidates contributed by one directory: files with the `.jsonl`
extension whose stat succeeded, keeping the listing order; an unreadable
directory contributes nothing (`catch (e) {}`). -/
def dirCandidates (d : DirListing) : List FileEntry :=
  match d.entries with
  | none => []
  | some es =>
    es.filterMap (fun p =>
      if strEndsWith p.1 ".jsonl" then
        match p.2 with
        | some m => some ⟨d.path ++ "/" ++ p.1, m⟩
        | none => none
      else none)

/-- All candidates across the watched directories, in scan order
(`allFiles.push(...files)`). -/
def allCandidates (dirs : List DirListing) : List FileEntry :=
  dirs.flatMap dirCandidates

/-- Descending-by-mtime comparison used by
`allFiles.sort((a, b) => b.mtime - a.mtime)`. -/
def mtimeDesc (a b : FileEntry) : Prop := b.mtime ≤ a.mtime

instance : DecidableRel mtimeDesc :=
  fun a b => inferInstanceAs (Decidable (b.mtime ≤ a.mtime))

instance : IsTotal FileEntry mtimeDesc := ⟨fun a b => le_total b.mtime a.mtime⟩

instance : IsTrans FileEntry mtimeDesc := ⟨fun _ _ _ h1 h2 => le_trans h2 h1⟩

/-- Embeds `_getBestFile()`: collect all `.jsonl` candidates across the
directories, sort by modification time descending (a stable sort; the
order of equal mtimes is implementation-defined per the contract), and
return the `sessionIndex`-th entry's path, or nothing when there are not
enough candidates. -/
def getBestFile (dirs : List DirListing) (sessionIndex : Nat) : Option String :=
  match (List.insertionSort mtimeDesc (allCandidates dirs)).get? sessionIndex with
  | some e => some e.file
  | none => none

/-! ### Helper lemmas -/

/-- Setting a key in the merge map makes it retrievable with that
value. -/
theorem mmFind_mmSet_self (m : MergeMap) (k : String) (v : Event) :
    mmFind (mmSet m k v) k = some v := by
  induction m with
  | nil => simp [mmSet, mmFind]
  | cons p rest ih =>
    obtain ⟨k', v'⟩ := p
    by_cases hk : k' == k
    · simp [mmSet, mmFind, hk]
    · simp [mmSet, mmFind, hk, ih]

/-! ### Claim C1 -/

/-- Concrete first fragment used for claim C1: a live text fragment with
a message id and no prior merge state. -/
def evC1 : Event := ⟨"text", "hello", .str "c1", false, .null, .undefined⟩

/-- C1 counterexample: for a text Event with a messageId and no existing
MergeState, `_processLine` stores the Event as the new MergeState but
then falls through to the unconditional emit at line 240 — the first
fragment IS emitted (with `isUpdate = false`), contrary to the claim
that nothing is emitted for it. -/
theorem C1_counterexample :
    (processEvents 0 false [] [evC1]).1 = [("c1:text:", evC1)] ∧
    (processEvents 0 false [] [evC1]).2 = [emitPlain evC1 0 false] ∧
    [emitPlain evC1 0 false] ≠ ([] : List Emitted) := by
  refine ⟨rfl, rfl, ?_⟩
  intro h
  exact List.noConfusion h

/-- C1 (amended): for every Event of merge-eligible kind (text,
thinking, tool-use) with a truthy messageId and no existing MergeState
in the slot, the Merge Engine stores the Event verbatim as the new
MergeState and emits it once, immediately, as a fresh (non-update)
Event tagged with the historical flag; processing then continues with
the remaining events of the record against the updated state. -/
theorem C1_amended (i : Nat) (h : Bool) (m : MergeMap) (e : Event) (rest : List Event)
    (he : mergeEligible e = true) (hnew : mmFind m (mergeKey e) = none) :
    processEvents i h m (e :: rest) =
      ((processEvents i h (mmSet m (mergeKey e) e) rest).1,
       emitPlain e i h :: (processEvents i h (mmSet m (mergeKey e) e) rest).2) := by
  simp [processEvents, he, hnew]

/-- C1 witness: the amended theorem applied to a concrete first
fragment over an empty merge map. -/
theorem C1_witness :
    mergeEligible evC1 = true ∧
    processEvents 0 false [] [evC1] =
      ((processEvents 0 false (mmSet [] (mergeKey evC1) evC1) []).1,
       emitPlain evC1 0 false :: (processEvents 0 false (mmSet [] (mergeKey evC1) evC1) []).2) :=
  ⟨rfl, C1_amended 0 false [] evC1 [] rfl rfl⟩

/-! ### Claim C2 -/

/-- Concrete stored merge state for claim C2: a completed text
message. -/
def evC2stored : Event := ⟨"text", "done!", .str "c2", true, .null, .undefined⟩

/-- Concrete incoming fragment for claim C2: strictly longer text,
marked incomplete. -/
def evC2longer : Event := ⟨"text", "done! and more", .str "c2", false, .null, .undefined⟩

/-- C2 counterexample: completion is NOT sticky under a strictly longer
text fragment.  The text-growth branch executes
`existing.isComplete = event.isComplete` (line 222 of `watcher.js`),
overwriting the stored `true` with the incoming `false`. -/
theorem C2_counterexample :
    evC2stored.isComplete = true ∧
    evC2longer.isComplete = false ∧
    (mmFind (processEvents 0 false [("c2:text:", evC2stored)] [evC2longer]).1
        "c2:text:").map Event.isComplete = some false :=
  ⟨rfl, rfl, rfl⟩

/-- C2 (amended): once a MergeState is complete, processing a
subsequent fragment for the same key never reverts `isComplete` to
false, UNLESS the fragment is a merge-eligible text fragment whose
content is strictly longer than the stored content — in that case the
stored flag is replaced by the incoming fragment's own flag. -/
theorem C2_amended (i : Nat) (h : Bool) (m : MergeMap) (e ex : Event)
    (hfind : mmFind m (mergeKey e) = some ex) (hcomp : ex.isComplete = true) :
    (¬(mergeEligible e = true ∧ e.type = "text" ∧ ex.content.length < e.content.length) →
      (mmFind (processEvents i h m [e]).1 (mergeKey e)).map Event.isComplete = some true)
    ∧ (mergeEligible e = true → e.type = "text" → ex.content.length < e.content.length →
      (mmFind (processEvents i h m [e]).1 (mergeKey e)).map Event.isComplete =
        some e.isComplete) := by
  constructor
  · intro hnot
    cases hel : mergeEligible e with
    | false => simp [processEvents, hel, hfind, hcomp]
    | true =>
      have hc : (e.type == "text" && decide (ex.content.length < e.content.length)) = false := by
        cases ht : e.type == "text" with
        | false => simp
        | true =>
          have ht' : e.type = "text" := by
            have := (beq_iff_eq (a := e.type) (b := "text")).mp ht
            exact this
          simp only [Bool.true_and, decide_eq_false_iff_not]
          intro hlt
          exact hnot ⟨hel, ht', hlt⟩
      simp [processEvents, hel, hfind, hc, hcomp]
  · intro hel ht hlt
    have hc : (e.type == "text" && decide (ex.content.length < e.content.length)) = true := by
      simp [ht, hlt]
    simp [processEvents, hel, hfind, hc, mmFind_mmSet_self]

/-- Concrete stored state and shorter incomplete fragment for the C2
witness. -/
def evC2wStored : Event := ⟨"text", "done!", .str "c2w", true, .null, .undefined⟩

/-- Shorter incomplete fragment arriving after completion. -/
def evC2shorter : Event := ⟨"text", "hi", .str "c2w", false, .null, .undefined⟩

/-- C2 witness: the amended stickiness applied to a concrete completed
state and a shorter incomplete fragment. -/
theorem C2_witness :
    (mmFind (processEvents 0 false [("c2w:text:", evC2wStored)] [evC2shorter]).1
        (mergeKey evC2shorter)).map Event.isComplete = some true :=
  (C2_amended 0 false [("c2w:text:", evC2wStored)] evC2shorter evC2wStored rfl rfl).1
    (by decide)

/-! ### Claim C3 -/

/-- C3 (confirmed): when `_processLine` reaches an extracted Event `e`
(with events `rest` of the same record still pending) that is
merge-eligible and whose MergeKey already has a MergeState in the slot,
the `return` statement inside the merge branch ends the processing of
the whole line: the result — merge state and emissions alike — is
exactly that of processing `e` alone, so the pending events are never
emitted and never buffered. -/
theorem C3 (i : Nat) (h : Bool) (m : MergeMap) (e : Event) (rest : List Event)
    (he : mergeEligible e = true) (hex : (mmFind m (mergeKey e)).isSome = true) :
    processEvents i h m (e :: rest) = processEvents i h m [e] := by
  obtain ⟨ex, hfind⟩ := Option.isSome_iff_exists.mp hex
  simp [processEvents, he, hfind]

/-- Stored merge state for the C3 witness. -/
def evC3stored : Event := ⟨"text", "abc", .str "c3", false, .null, .undefined⟩

/-- Growing fragment hitting the existing state in the C3 witness. -/
def evC3frag : Event := ⟨"text", "abcdef", .str "c3", false, .null, .undefined⟩

/-- Trailing event of the same record, dropped by the early return. -/
def evC3tail : Event := ⟨"tool_use", "Read(x)", .str "c3", false, .null, .str "Read"⟩

/-- C3 witness: with a concrete existing state, processing the two-event
list equals processing only its first event. -/
theorem C3_witness :
    processEvents 0 false [("c3:text:", evC3stored)] [evC3frag, evC3tail] =
      processEvents 0 false [("c3:text:", evC3stored)] [evC3frag] :=
  C3 0 false [("c3:text:", evC3stored)] evC3frag [evC3tail] rfl rfl

/-! ### Claim C4 -/

/-- Live text fragment of length 5 for claim C4. -/
def evC4a : Event := ⟨"text", "aaaaa", .str "c4", false, .null, .undefined⟩

/-- Live text fragment of length 12 for claim C4. -/
def evC4b : Event := ⟨"text", "aaaaaaaaaaaa", .str "c4", false, .null, .undefined⟩

/-- Live text fragment of length 9 for claim C4. -/
def evC4c : Event := ⟨"text", "aaaaaaaaa", .str "c4", false, .null, .undefined⟩

/-- C4 counterexample: the length-5 fragment is NOT "buffered with no
emit" as the claim states — processing it over an empty merge state
emits exactly one event (the fall-through emit at line 240 of
`watcher.js`). -/
theorem C4_counterexample :
    evC4a.content.length = 5 ∧
    (processEvents 0 false [] [evC4a]).2.map (fun em => (em.isUpdate, em.content)) =
      [(false, "aaaaa")] :=
  ⟨rfl, rfl⟩

/-- C4 (amended): for live text fragments of lengths 5, 12, 9 arriving
in that order for the same messageId with no prior state, exactly two
events are emitted: the length-5 fragment is stored and emitted with
`isUpdate = false`, the length-12 fragment emits an in-place update
(`isUpdate = true`), and the length-9 fragment is suppressed since
9 < 12. -/
theorem C4_amended :
    (processEvents 0 false [] [evC4a]).2.map (fun em => (em.isUpdate, em.content)) =
        [(false, "aaaaa")] ∧
    (processEvents 0 false (processEvents 0 false [] [evC4a]).1 [evC4b]).2.map
        (fun em => (em.isUpdate, em.content)) = [(true, "aaaaaaaaaaaa")] ∧
    (processEvents 0 false
        (processEvents 0 false (processEvents 0 false [] [evC4a]).1 [evC4b]).1
        [evC4c]).2 = [] ∧
    ((processEvents 0 false [] [evC4a]).2.length +
      (processEvents 0 false (processEvents 0 false [] [evC4a]).1 [evC4b]).2.length +
      (processEvents 0 false
          (processEvents 0 false (processEvents 0 false [] [evC4a]).1 [evC4b]).1
          [evC4c]).2.length) = 2 :=
  ⟨rfl, rfl, rfl, rfl⟩

/-! ### Claim C5 -/

/-- A content block the assistant branch of `extractEvent` recognizes:
`thinking`, `text` or `tool_use`. -/
def recognizedBlock (b : Js) : Bool :=
  jsStrictEqStr (jsGet b "type") "thinking" || jsStrictEqStr (jsGet b "type") "text" ||
    jsStrictEqStr (jsGet b "type") "tool_use"

/-- A successful strict string comparison pins down the compared
value. -/
theorem jsStrictEqStr_eq {v : Js} {s : String} (h : jsStrictEqStr v s = true) :
    v = .str s := by
  cases v <;> simp_all [jsStrictEqStr]

/-- Structure of a successful `blockEvents` run: one event per
recognized block, in block order (witnessed by the event-type list
matching the recognized blocks' type strings), with the message id,
completion flag and usage value propagated identically to every
event. -/
theorem blockEvents_spec (mid : Js) (comp : Bool) (usage : Js) :
    ∀ (blocks : List Js) (evs : List Event),
      blockEvents mid comp usage blocks = some evs →
      (evs.map Event.type =
        (blocks.filter recognizedBlock).map (fun b => jsToString (jsGet b "type"))) ∧
      ∀ e ∈ evs, e.messageId = mid ∧ e.isComplete = comp ∧ e.usage = usage := by
  intro blocks
  induction blocks with
  | nil =>
    intro evs h
    simp only [blockEvents, Option.some.injEq] at h
    subst h
    simp
  | cons b rest ih =>
    intro evs h
    by_cases h1 : jsStrictEqStr (jsGet b "type") "thinking" = true
    · simp only [blockEvents, h1, if_true] at h
      cases htc : thinkingContent (jsGet b "thinking") with
      | none => rw [htc] at h; exact absurd h (by simp)
      | some c =>
        rw [htc] at h
        obtain ⟨evs', hbe, rfl⟩ := Option.map_eq_some'.mp h
        obtain ⟨hmap, hprops⟩ := ih evs' hbe
        refine ⟨?_, ?_⟩
        · have hrec : recognizedBlock b = true := by simp [recognizedBlock, h1]
          simp [List.filter_cons, hrec, jsStrictEqStr_eq h1, jsToString, hmap]
        · intro e he
          rcases List.mem_cons.mp he with rfl | he'
          · exact ⟨rfl, rfl, rfl⟩
          · exact hprops e he'
    · by_cases h2 : jsStrictEqStr (jsGet b "type") "text" = true
      · simp only [blockEvents, h1, h2, if_true, if_false] at h
        cases htc : textContent (jsGet b "text") with
        | none => rw [htc] at h; exact absurd h (by simp)
        | some c =>
          rw [htc] at h
          obtain ⟨evs', hbe, rfl⟩ := Option.map_eq_some'.mp h
          obtain ⟨hmap, hprops⟩ := ih evs' hbe
          refine ⟨?_, ?_⟩
          · have hrec : recognizedBlock b = true := by simp [recognizedBlock, h2]
            simp [List.filter_cons, hrec, jsStrictEqStr_eq h2, jsToString, hmap]
          · intro e he
            rcases List.mem_cons.mp he with rfl | he'
            · exact ⟨rfl, rfl, rfl⟩
            · exact hprops e he'
      · by_cases h3 : jsStrictEqStr (jsGet b "type") "tool_use" = true
        · simp only [blockEvents, h1, h2, h3, if_true, if_false] at h
          obtain ⟨evs', hbe, rfl⟩ := Option.map_eq_some'.mp h
          obtain ⟨hmap, hprops⟩ := ih evs' hbe
          refine ⟨?_, ?_⟩
          · have hrec : recognizedBlock b = true := by simp [recognizedBlock, h3]
            simp [List.filter_cons, hrec, jsStrictEqStr_eq h3, jsToString, hmap]
          · intro e he
            rcases List.mem_cons.mp he with rfl | he'
            · exact ⟨rfl, rfl, rfl⟩
            · exact hprops e he'
        · simp only [blockEvents, h1, h2, h3, if_false] at h
          obtain ⟨hmap, hprops⟩ := ih evs h
          refine ⟨?_, hprops⟩
          have hrec : recognizedBlock b = false := by simp [recognizedBlock, h1, h2, h3]
          simp [List.filter_cons, hrec, hmap]

/-- Assistant record for the C5 counterexample: one unrecognized content
block plus a non-null stop reason. -/
def recC5 : Js := .obj [("type", .str "assistant"),
  ("message", .obj [("id", .str "c5"), ("stop_reason", .str "end_turn"),
                    ("content", .arr [.obj [("type", .str "server_tool_use")]])])]

/-- C5 counterexample: this assistant record has one content block, zero
of which are recognized, yet the extractor yields one Event — the
synthetic `complete` Event the stop reason triggers when no block
produced anything.  "Exactly one Event per recognized block" therefore
fails on it (one event versus zero recognized blocks). -/
theorem C5_counterexample :
    extractEvent recC5 =
      some [⟨"complete", "[end_turn]", .str "c5", true, .null, .undefined⟩] ∧
    List.filter recognizedBlock [.obj [("type", .str "server_tool_use")]] = [] :=
  ⟨rfl, rfl⟩

/-- C5 (amended): for every assistant record whose message's content
blocks extract without an exception, the Extractor yields exactly one
Event per recognized block type (thinking, text, tool-use) in block
order — unless no recognized block yields an event and the stop reason
is non-null, in which case it yields a single synthetic `complete`
Event instead (and nothing when the stop reason is null).  Every
per-block Event carries `isComplete = (stop_reason !== null)` and the
message's usage value (`usage || null`) propagated identically. -/
theorem C5_amended (record msg : Js) (blocks : List Js) (evs : List Event)
    (hty : jsGet record "type" = .str "assistant")
    (hmsg : jsGet record "message" = msg)
    (hm : truthy msg = true)
    (hcontent : jsGet msg "content" = .arr blocks)
    (hblocks : blockEvents (jsGet msg "id") (!(jsIsNull (jsGet msg "stop_reason")))
        (if truthy (jsGet msg "usage") then jsGet msg "usage" else Js.null) blocks = some evs)
    (hrec : truthy record = true) :
    (extractEvent record =
      if evs.isEmpty then
        (if !(jsIsNull (jsGet msg "stop_reason")) then
          some [⟨"complete", "[" ++ jsToString (jsGet msg "stop_reason") ++ "]",
                 jsGet msg "id", true,
                 (if truthy (jsGet msg "usage") then jsGet msg "usage" else Js.null),
                 Js.undefined⟩]
         else none)
      else some evs) ∧
    (evs.map Event.type =
      (blocks.filter recognizedBlock).map (fun b => jsToString (jsGet b "type"))) ∧
    ∀ e ∈ evs, e.messageId = jsGet msg "id" ∧
      e.isComplete = !(jsIsNull (jsGet msg "stop_reason")) ∧
      e.usage = (if truthy (jsGet msg "usage") then jsGet msg "usage" else Js.null) := by
  obtain ⟨hmap, hprops⟩ := blockEvents_spec _ _ _ blocks evs hblocks
  refine ⟨?_, hmap, hprops⟩
  have hta : truthy (Js.str "assistant") = true := rfl
  have htarr : truthy (Js.arr blocks) = true := rfl
  simp [extractEvent, hty, hmsg, hcontent, jsIterList, hblocks, hrec, hm, hta, htarr]

/-- Assistant message for the C5 witness: a text block and a tool-use
block, streaming (null stop reason). -/
def msgC5w : Js := .obj [("id", .str "c5w"), ("stop_reason", .null),
  ("content", .arr [.obj [("type", .str "text"), ("text", .str "hi")],
                    .obj [("type", .str "tool_use"), ("name", .str "Read"),
                          ("input", .obj [("file_path", .str "/a/b.ts")])]])]

/-- Assistant record wrapping `msgC5w`. -/
def recC5w : Js := .obj [("type", .str "assistant"), ("message", msgC5w)]

/-- Events the C5 witness record extracts to. -/
def evsC5w : List Event :=
  [⟨"text", "hi", .str "c5w", false, .null, .undefined⟩,
   ⟨"tool_use", "Read(/a/b.ts)", .str "c5w", false, .null, .str "Read"⟩]

/-- C5 witness: the amended theorem applied to a concrete two-block
assistant record. -/
theorem C5_witness :
    extractEvent recC5w = some evsC5w ∧
    evsC5w.map Event.type = ["text", "tool_use"] := by
  have h := C5_amended recC5w msgC5w
    [.obj [("type", .str "text"), ("text", .str "hi")],
     .obj [("type", .str "tool_use"), ("name", .str "Read"),
           ("input", .obj [("file_path", .str "/a/b.ts")])]]
    evsC5w rfl rfl rfl rfl rfl rfl
  exact ⟨by simpa using h.1, by simpa using h.2.1⟩

/-! ### Claim C6 -/

/-- Queue-operation record with a `dequeue` operation. -/
def recC6 : Js := .obj [("type", .str "queue-operation"), ("operation", .str "dequeue")]

/-- C6 counterexample: the session-start Event produced for a dequeue
record carries the literal content `"Session started"`, not the empty
content the claim states. -/
theorem C6_counterexample :
    extractEvent recC6 =
      some [⟨"session-start", "Session started", .null, false, .undefined, .undefined⟩] ∧
    "Session started" ≠ "" :=
  ⟨rfl, by decide⟩

/-- C6 (amended): for every queue-operation record whose operation is
strictly `"dequeue"`, the Extractor returns exactly one session-start
Event with content `"Session started"`, a null messageId and
`isComplete = false`; for any other operation it returns no event. -/
theorem C6_amended (record : Js)
    (hrec : truthy record = true)
    (hty : jsGet record "type" = .str "queue-operation") :
    extractEvent record =
      (if jsStrictEqStr (jsGet record "operation") "dequeue" then
        some [⟨"session-start", "Session started", Js.null, false, Js.undefined, Js.undefined⟩]
      else none) := by
  have htq : truthy (Js.str "queue-operation") = true := rfl
  simp [extractEvent, hty, hrec, htq]

/-- C6 witness: the amended theorem applied to a concrete dequeue
record. -/
theorem C6_witness :
    extractEvent recC6 =
      (if jsStrictEqStr (jsGet recC6 "operation") "dequeue" then
        some [⟨"session-start", "Session started", Js.null, false, Js.undefined, Js.undefined⟩]
      else none) :=
  C6_amended recC6 rfl rfl

/-! ### Claim C7 -/

/-- In a strictly descending (by mtime) list, the element at index `n`
has exactly `n` elements strictly greater than it. -/
theorem countP_gt_of_sortedStrict :
    ∀ (s : List FileEntry), s.Pairwise (fun a b => b.mtime < a.mtime) →
      ∀ (n : Nat) (h : n < s.length),
        s.countP (fun c => decide ((s.get ⟨n, h⟩).mtime < c.mtime)) = n := by
  intro s
  induction s with
  | nil => intro _ n h; exact absurd h (by simp)
  | cons a t ih =>
    intro hp n h
    obtain ⟨hhead, htail⟩ := List.pairwise_cons.mp hp
    cases n with
    | zero =>
      have hget : (a :: t).get ⟨0, h⟩ = a := rfl
      rw [hget, List.countP_cons]
      have ha : decide (a.mtime < a.mtime) = false := by simp
      have ht0 : t.countP (fun c => decide (a.mtime < c.mtime)) = 0 := by
        rw [List.countP_eq_zero]
        intro c hc
        simp only [decide_eq_true_eq, not_lt]
        exact le_of_lt (hhead c hc)
      rw [ht0, ha]
      simp
    | succ n =>
      have hn : n < t.length := by simpa using h
      have hmem : t.get ⟨n, hn⟩ ∈ t := List.get_mem t n hn
      have hlt2 : (t.get ⟨n, hn⟩).mtime < a.mtime := hhead _ hmem
      have hget : (a :: t).get ⟨n + 1, h⟩ = t.get ⟨n, hn⟩ := rfl
      rw [hget, List.countP_cons, ih htail n hn, decide_eq_true hlt2]
      simp

/-- Unfolding of `getBestFile` as an `Option.map` over the indexed
lookup in the sorted candidate list. -/
theorem getBestFile_eq (dirs : List DirListing) (n : Nat) :
    getBestFile dirs n =
      ((List.insertionSort mtimeDesc (allCandidates dirs)).get? n).map
        (fun e => e.file) := by
  unfold getBestFile
  cases (List.insertionSort mtimeDesc (allCandidates dirs)).get? n <;> rfl

/-- C7 (confirmed): the File Selector returns no file exactly when
fewer than `n+1` candidates exist; directories that cannot be listed
contribute no candidates and do not change the result; and when all
candidate mtimes are distinct, the returned path belongs to the
candidate with exactly `n` candidates strictly more recent than it
(rank 0 = most recently modified). -/
theorem C7 (dirs : List DirListing) (n : Nat) :
    (getBestFile dirs n = none ↔ (allCandidates dirs).length ≤ n) ∧
    (∀ (pre post : List DirListing) (d : DirListing), d.entries = none →
      getBestFile (pre ++ d :: post) n = getBestFile (pre ++ post) n) ∧
    ((allCandidates dirs).Pairwise (fun a b => a.mtime ≠ b.mtime) →
      n < (allCandidates dirs).length →
      ∃ e, e ∈ allCandidates dirs ∧ getBestFile dirs n = some e.file ∧
        (allCandidates dirs).countP (fun c => decide (e.mtime < c.mtime)) = n) := by
  have hperm := List.perm_insertionSort mtimeDesc (allCandidates dirs)
  have hlen : (List.insertionSort mtimeDesc (allCandidates dirs)).length
      = (allCandidates dirs).length := hperm.length_eq
  refine ⟨?_, ?_, ?_⟩
  · rw [getBestFile_eq, Option.map_eq_none', List.get?_eq_none, hlen]
  · intro pre post d hd
    have hcand : allCandidates (pre ++ d :: post) = allCandidates (pre ++ post) := by
      simp [allCandidates, dirCandidates, hd]
    unfold getBestFile
    rw [hcand]
  · intro hdist hlt
    have hsorted : (List.insertionSort mtimeDesc (allCandidates dirs)).Pairwise mtimeDesc :=
      List.sorted_insertionSort mtimeDesc (allCandidates dirs)
    have hdists : (List.insertionSort mtimeDesc (allCandidates dirs)).Pairwise
        (fun a b => a.mtime ≠ b.mtime) :=
      hdist.perm hperm.symm (fun hab => Ne.symm hab)
    have hstrict : (List.insertionSort mtimeDesc (allCandidates dirs)).Pairwise
        (fun a b => b.mtime < a.mtime) :=
      (hsorted.and hdists).imp (fun hab => lt_of_le_of_ne hab.1 hab.2.symm)
    have hn : n < (List.insertionSort mtimeDesc (allCandidates dirs)).length := by
      rw [hlen]; exact hlt
    refine ⟨(List.insertionSort mtimeDesc (allCandidates dirs)).get ⟨n, hn⟩, ?_, ?_, ?_⟩
    · exact hperm.mem_iff.mp (List.get_mem _ n hn)
    · rw [getBestFile_eq, List.get?_eq_get hn]
      rfl
    · rw [← hperm.countP_eq]
      exact countP_gt_of_sortedStrict _ hstrict n hn

/-- Directory listing for the C7 witness: `a.jsonl` at mtime T and
`b.jsonl` at mtime T+10. -/
def dirC7w : DirListing := ⟨"d", some [("a.jsonl", some 0), ("b.jsonl", some 10)]⟩

/-- C7 witness: the selector theorem applied to the two-file scenario —
rank 1 returns the older file (exactly one candidate is newer) and
rank 2 returns no file. -/
theorem C7_witness :
    getBestFile [dirC7w] 2 = none ∧
    (∃ e, e ∈ allCandidates [dirC7w] ∧ getBestFile [dirC7w] 1 = some e.file ∧
      (allCandidates [dirC7w]).countP (fun c => decide (e.mtime < c.mtime)) = 1) :=
  ⟨(C7 [dirC7w] 2).1.mpr (by decide),
   (C7 [dirC7w] 1).2.2 (by decide) (by decide)⟩

/-! ### Claim C8 -/

/-- C8 (confirmed): on a change notification, nothing is read or
emitted when the file's size is not larger than the cursor; otherwise
exactly the byte range `[cursor, newSize)` is read, the cursor advances
to `newSize`, and the new non-blank lines are processed as live input;
and a second notification for the same contents after one read causes
no further read and no emission. -/
theorem C8 (st : TailState) (i : Nat) (content : String) :
    (content.length ≤ st.fileSize → readNewContent st i content = (st, [])) ∧
    (st.fileSize < content.length →
      readNewContent st i content =
        (⟨content.length,
          (processLines st.messageStates i
            (nonBlankLines (String.mk (content.toList.drop st.fileSize))) false).1⟩,
         (processLines st.messageStates i
            (nonBlankLines (String.mk (content.toList.drop st.fileSize))) false).2)) ∧
    readNewContent (readNewContent st i content).1 i content =
      ((readNewContent st i content).1, []) := by
  refine ⟨?_, ?_, ?_⟩
  · intro hle
    simp [readNewContent, hle]
  · intro hlt
    have hn : ¬(content.length ≤ st.fileSize) := Nat.not_le.mpr hlt
    simp [readNewContent, hn]
  · by_cases hle : content.length ≤ st.fileSize
    · simp [readNewContent, hle]
    · simp [readNewContent, hle]

/-- File contents for the C8 witness: a 100-byte prefix followed by an
80-byte appended tail (total 180 bytes). -/
def contentC8w : String :=
  String.mk (List.replicate 99 'x') ++ "\n" ++ String.mk (List.replicate 79 'y') ++ "\n"

set_option maxRecDepth 100000 in
/-- C8 witness: the tail theorem applied to the scenario of a file
growing from 100 to 180 bytes with the cursor at 100. -/
theorem C8_witness :
    (⟨100, []⟩ : TailState).fileSize < contentC8w.length ∧
    readNewContent ⟨100, []⟩ 0 contentC8w =
      (⟨contentC8w.length,
        (processLines [] 0 (nonBlankLines (String.mk (contentC8w.toList.drop 100))) false).1⟩,
       (processLines [] 0 (nonBlankLines (String.mk (contentC8w.toList.drop 100))) false).2) :=
  ⟨by decide, (C8 ⟨100, []⟩ 0 contentC8w).2.1 (by decide)⟩

/-! ### Claim C9 -/

/-- During a historical step on an event whose key already has a merge
state, nothing is emitted: both update branches guard their emission
with the (false) live flag. -/
theorem processEvents_existing_hist (i : Nat) (m : MergeMap) (e ex : Event)
    (rest : List Event) (he : mergeEligible e = true)
    (hfind : mmFind m (mergeKey e) = some ex) :
    (processEvents i true m (e :: rest)).2 = [] := by
  simp only [processEvents, he, hfind, if_true]
  split
  · simp
  · split <;> simp

/-- Every event emitted by a historical run of the merge loop carries
`isHistory = true` and `isUpdate = false`. -/
theorem processEvents_history (i : Nat) :
    ∀ (es : List Event) (m : MergeMap),
      ∀ em ∈ (processEvents i true m es).2,
        em.isHistory = some true ∧ em.isUpdate = false := by
  intro es
  induction es with
  | nil => intro m em hem; simp [processEvents] at hem
  | cons e rest ih =>
    intro m em hem
    by_cases hel : mergeEligible e = true
    · cases hfind : mmFind m (mergeKey e) with
      | some ex =>
        rw [processEvents_existing_hist i m e ex rest hel hfind] at hem
        simp at hem
      | none =>
        simp only [processEvents, hel, hfind, if_true] at hem
        rcases List.mem_cons.mp hem with rfl | hem'
        · exact ⟨rfl, rfl⟩
        · exact ih _ em hem'
    · simp only [processEvents, hel, Bool.false_eq_true, if_false] at hem
      rcases List.mem_cons.mp hem with rfl | hem'
      · exact ⟨rfl, rfl⟩
      · exact ih _ em hem'

/-- Every event emitted by a historical `_processLine` call carries
`isHistory = true` and `isUpdate = false`. -/
theorem processLine_history (m : MergeMap) (i : Nat) (line : String) :
    ∀ em ∈ (processLine m i line true).2,
      em.isHistory = some true ∧ em.isUpdate = false := by
  intro em hem
  unfold processLine at hem
  by_cases hr : truthy (parseRecord line) = true
  · simp only [hr, Bool.not_true, Bool.false_eq_true, if_false] at hem
    cases hx : extractEvent (parseRecord line) with
    | none => rw [hx] at hem; simp at hem
    | some evs =>
      rw [hx] at hem
      exact processEvents_history i evs m em hem
  · simp only [Bool.not_eq_true] at hr
    simp [hr] at hem

/-- Every event emitted by a historical replay of a list of lines
carries `isHistory = true` and `isUpdate = false`. -/
theorem processLines_history (i : Nat) :
    ∀ (lines : List String) (m : MergeMap),
      ∀ em ∈ (processLines m i lines true).2,
        em.isHistory = some true ∧ em.isUpdate = false := by
  intro lines
  induction lines with
  | nil => intro m em hem; simp [processLines] at hem
  | cons l rest ih =>
    intro m em hem
    simp only [processLines] at hem
    rcases List.mem_append.mp hem with h1 | h2
    · exact processLine_history m i l em h1
    · exact ih _ em h2

/-- C9 (confirmed): replay on open processes exactly the last 50
non-blank lines of the file's contents (hence at most 50 lines), and
every event it emits carries `isHistory = true` and never
`isUpdate = true`, regardless of how many buffered fragments are
replayed. -/
theorem C9 (m : MergeMap) (i : Nat) (content : String) :
    loadFileReplay m i content =
      processLines m i
        ((nonBlankLines content).drop ((nonBlankLines content).length - 50)) true ∧
    ((nonBlankLines content).drop ((nonBlankLines content).length - 50)).length ≤ 50 ∧
    ∀ em ∈ (loadFileReplay m i content).2,
      em.isHistory = some true ∧ em.isUpdate = false := by
  refine ⟨rfl, ?_, ?_⟩
  · rw [List.length_drop]
    omega
  · intro em hem
    exact processLines_history i _ m em hem

/-! ### Claim C10 -/

/-- C10 counterexample: the line `"null"` is neither blank nor a JSON
parse failure — `JSON.parse` succeeds with the value `null` — yet
`parseRecord` returns `null`, the "no record" result its callers guard
against.  The claimed "no record exactly when empty/whitespace-only or
failing to parse" is therefore false on it. -/
theorem C10_counterexample :
    parseRecord "null" = Js.null ∧ jsTrim "null" ≠ "" ∧
    jsonParse (jsTrim "null") = some Js.null :=
  ⟨rfl, by decide, rfl⟩

/-- C10 (amended): the Record Parser is a total function of the line
(never raises, by construction of the embedding), and it yields "no
record" (the JS `null` result) exactly when the trimmed line fails to
parse as a JSON value OR parses to the JSON literal `null`; an
empty/whitespace-only line is a special case of parse failure.  The
Extractor is likewise total, with extraction-time exceptions modelled
as "no event". -/
theorem C10_amended (line : String) :
    (parseRecord line = Js.null ↔
      (jsonParse (jsTrim line) = none ∨ jsonParse (jsTrim line) = some Js.null)) ∧
    (jsTrim line = "" → jsonParse (jsTrim line) = none) := by
  constructor
  · unfold parseRecord
    cases h : jsonParse (jsTrim line) with
    | none => simp
    | some v =>
      simp only [h]
      constructor
      · intro hv
        exact Or.inr (by rw [hv])
      · rintro (hc | hc)
        · exact absurd hc (by simp)
        · exact Option.some.inj hc
  · intro he
    rw [he]
    rfl

/-- C10 witness: the amended parser contract applied to a
whitespace-only line and to the line `"null"`. -/
theorem C10_witness :
    jsonParse (jsTrim "   ") = none ∧
    (parseRecord "null" = Js.null ↔
      (jsonParse (jsTrim "null") = none ∨ jsonParse (jsTrim "null") = some Js.null)) :=
  ⟨(C10_amended "   ").2 rfl, (C10_amended "null").1⟩

end Hackview
